import Mathlib

/-!
Verification of the core of `label_studio_converter/utils.py`:

* `create_tokens_and_tags` (the SpanTagger): aligns character-offset label
  spans onto a token stream, producing BIO tags;
* `parse_config` (the ConfigParser): parses a labeling-config tag tree into
  a schema mapping output-tag names to descriptors.

Both are embedded shallowly.  The tokenizer (`TreebankWordTokenizer`) and the
XML parser (`lxml.etree.fromstring`) are external collaborators: the tagger is
parameterised by the tokenizer output (a list of `(token_text, start_offset)`
pairs) and the config parser by the parse outcome of the XML library.
-/

set_option autoImplicit false

namespace LabelStudio

/-! ## SpanTagger: `create_tokens_and_tags`

A span is a Python dict with optional keys `start`, `end`, `labels`.
`start`/`end` are integers (the `end` is exclusive), `labels` a list of
label names.  A missing key is `none`; `span.get(k)` truthiness is modelled
explicitly below. -/

structure Span where
  start? : Option Int
  stop? : Option Int
  labels? : Option (List String)
deriving Repr, DecidableEq

/-- Reads the span entry `start` on the guarded path (the code only reads it
after checking `span.get(start) is not None`); the default is irrelevant
there. -/
def spanStartD (s : Span) : Int := s.start?.getD 0

/-- Computes `span[end] - 1`: converts the exclusive end to the inclusive
offset of the last character of the span, exactly as the source does. -/
def spanEndD (s : Span) : Int := s.stop?.getD 0 - 1

/-- Python truthiness of the span dict itself (`not span`): an empty dict is
falsy.  Our model carries the three keys the code reads. -/
def spanFalsy (s : Span) : Bool :=
  s.start?.isNone && s.stop?.isNone && s.labels?.isNone

/-- Truthiness of `span.get(labels)`: present and a non-empty list. -/
def hasLabels (s : Span) : Bool :=
  match s.labels? with
  | none => false
  | some l => !l.isEmpty

/-- Reads `span[labels][0]` on the path guarded by `hasLabels`. -/
def headLabelD (s : Span) : String := (s.labels?.getD []).headD ""

/-- The loop state of `create_tokens_and_tags`: the current span, the
remaining sorted spans, the cached `span_start`/`span_end` variables, and the
BIO `prefix` variable (named `pfx` here). -/
structure TagState where
  span : Span
  spans : List Span
  span_start : Int
  span_end : Int
  pfx : String
deriving Repr

/-- The inner `while spans:` loop, taking the current span and the remaining
spans: while the list is non-empty, its head is popped and becomes current
(with `prefix` reset), and the loop breaks as soon as the check
`token_start <= span_end` passes for the span just popped; when the list runs
out the last popped span stays current.  Returns the final current span and
the remainder. -/
def advanceSpans (token_start : Int) : Span → List Span → Span × List Span
  | sp, [] => (sp, [])
  | _, s :: rest =>
    if token_start ≤ spanEndD s then (s, rest)
    else advanceSpans token_start s rest

/-- The `if token_start_ind > span_end:` advance step of the loop body.  When
it fires and at least one span remains, the while loop runs on the current
span and the whole remaining list (so every popped span, the first included,
gets the break check), `prefix` is reset to `"B-"` and the cached bounds are
recomputed for the new current span; with no spans left the state is
unchanged. -/
def advancePhase (token_start : Int) (st : TagState) : TagState :=
  if token_start > st.span_end then
    match st.spans with
    | [] => st
    | s :: rest =>
      let p := advanceSpans token_start st.span (s :: rest)
      { span := p.1, spans := p.2, span_start := spanStartD p.1,
        span_end := spanEndD p.1, pfx := "B-" }
  else st

/-- The tag decision of the loop body, returning the emitted tag and the new
value of `prefix`:
* `"O"` when the span dict is falsy, or `token_end < span_start`, or the span
  has no labels;
* `prefix + labels[0]` (and `prefix` becomes `"I-"`) when
  `span_start <= token_end and span_end >= token_start`;
* `"O"` otherwise. -/
def tagDecision (token_start token_end : Int) (st : TagState) : String × String :=
  if spanFalsy st.span = true ∨ token_end < st.span_start ∨ hasLabels st.span = false then
    ("O", st.pfx)
  else if st.span_start ≤ token_end ∧ st.span_end ≥ token_start then
    (st.pfx ++ headLabelD st.span, "I-")
  else ("O", st.pfx)

/-- The `for token, token_start in tokens_and_idx:` loop, producing the tag
list.  `token_end = token_start + len(token) - 1`. -/
def tagTokens : List (String × Nat) → TagState → List String
  | [], _ => []
  | (tok, tstart) :: rest, st =>
    let token_start : Int := (tstart : Int)
    let token_end : Int := token_start + (tok.length : Int) - 1
    let st1 := advancePhase token_start st
    let d := tagDecision token_start token_end st1
    d.1 :: tagTokens rest { st1 with pfx := d.2 }

/-- Stable insertion for the right-fold insertion sort: `x` (earlier in the
original order than everything already sorted) moves past elements with a
strictly smaller `start` and lands before the first element whose `start` is
equal or larger, so spans with tied starts keep their original order —
modelling the stable Python `sorted(spans, key=itemgetter(start))`. -/
def insertByStart (x : Span) : List Span → List Span
  | [] => [x]
  | y :: ys =>
    if spanStartD y < spanStartD x then y :: insertByStart x ys
    else x :: y :: ys

/-- Stable sort of the spans ascending by `start`. -/
def sortByStart : List Span → List Span
  | [] => []
  | x :: xs => insertByStart x (sortByStart xs)

/-- The precondition guard: `spans and all(span.get(start) is not None and
span.get(end) is not None for span in spans)`. -/
def spansValid (spans : List Span) : Bool :=
  !spans.isEmpty && spans.all (fun s => s.start?.isSome && s.stop?.isSome)

/-- Models `create_tokens_and_tags(text, spans)`, parameterised by the output
`tokens_and_idx` of the external tokenizer (the `(text[start:end], start)` pairs the
source computes from `TreebankWordTokenizer().span_tokenize(text)`).  When the
guard fails, every token is tagged `"O"`; otherwise the spans are sorted by
`start`, the first is popped as the current span, and the sweep runs with
`prefix = "B-"`. -/
def create_tokens_and_tags (tokens_and_idx : List (String × Nat)) (spans : List Span) :
    List String × List String :=
  let tokens := tokens_and_idx.map Prod.fst
  if spansValid spans = true then
    match sortByStart spans with
    | [] => (tokens, List.replicate tokens.length "O")
    | sp :: rest =>
      (tokens, tagTokens tokens_and_idx
        { span := sp, spans := rest, span_start := spanStartD sp,
          span_end := spanEndD sp, pfx := "B-" })
  else
    (tokens, List.replicate tokens.length "O")

/-! ## ConfigParser: `parse_config`

The config is an XML-like tag tree.  A node carries its tag kind, its
attribute map (document order of attributes, string keys and values) and its
children; parent back-references are replaced by the ancestor chain passed
down during traversal (nearest ancestor first). -/

abbrev AttrMap := List (String × String)

/-- Models `tag.attrib.get(k)`: the value of the first attribute named `k`. -/
def attrGet (attrs : AttrMap) (k : String) : Option String :=
  (attrs.find? (fun p => p.1 == k)).map (fun p => p.2)

/-- Python truthiness of `attrib.get(k)`: present and non-empty. -/
def truthy : Option String → Bool
  | none => false
  | some s => !s.isEmpty

def _LABEL_TAGS : List String := ["Label", "Choice"]

def _NOT_CONTROL_TAGS : List String := ["Filter"]

/-- Models `_is_input_tag(tag)`: the truthiness of
`tag.attrib.get(name) and tag.attrib.get(value)`. -/
def _is_input_tag (attrs : AttrMap) : Bool :=
  truthy (attrGet attrs "name") && truthy (attrGet attrs "value")

/-- Models `_is_output_tag(tag)`: `name` and `toName` truthy and the tag kind not in
`_NOT_CONTROL_TAGS`. -/
def _is_output_tag (tag : String) (attrs : AttrMap) : Bool :=
  truthy (attrGet attrs "name") && truthy (attrGet attrs "toName")
    && !(_NOT_CONTROL_TAGS.contains tag)

structure Conditional where
  ctype : String
  cname : String
deriving Repr, DecidableEq

/-- The conditionals block: only when the attribute `perRegion` equals the
string `true`, the first truthy
attribute among `whenTagName`, `whenLabelValue`, `whenChoiceValue` wins; an
empty dict is left unattached (`none`). -/
def getConditionals (attrs : AttrMap) : Option Conditional :=
  if attrGet attrs "perRegion" == some "true" then
    if truthy (attrGet attrs "whenTagName") then
      some ⟨"tag", (attrGet attrs "whenTagName").getD ""⟩
    else if truthy (attrGet attrs "whenLabelValue") then
      some ⟨"label", (attrGet attrs "whenLabelValue").getD ""⟩
    else if truthy (attrGet attrs "whenChoiceValue") then
      some ⟨"choice", (attrGet attrs "whenChoiceValue").getD ""⟩
    else none
  else none

structure OutputTagInfo where
  type : String
  to_name : List String
  conditionals : Option Conditional
deriving Repr, DecidableEq

structure InputTagInfo where
  type : String
  value : String
deriving Repr, DecidableEq

/-- Insert-or-update with Python-dict semantics: an existing key keeps its
position and gets the new value; a new key is appended. -/
def updAssoc {β : Type} (m : List (String × β)) (k : String) (v : β) :
    List (String × β) :=
  if m.any (fun p => p.1 == k) then
    m.map (fun p => if p.1 == k then (k, v) else p)
  else m ++ [(k, v)]

/-- Models `m[k]` / `m.get(k)` as an option. -/
def lookupAssoc {β : Type} (m : List (String × β)) (k : String) : Option β :=
  (m.find? (fun p => p.1 == k)).map (fun p => p.2)

/-- Models `k in m` for the modelled dict. -/
def hasKey {β : Type} (m : List (String × β)) (k : String) : Bool :=
  m.any (fun p => p.1 == k)

/-- Models `_get_parent_output_tag_name(tag, outputs)`: walks the ancestor
chain (nearest first) and returns the `name` of the first ancestor that is a key of
`outputs`; `None` (a missing `name`) is never a key. -/
def _get_parent_output_tag_name :
    List AttrMap → List (String × OutputTagInfo) → Option String
  | [], _ => none
  | a :: rest, outputs =>
    match attrGet a "name" with
    | some n =>
      if hasKey outputs n then some n
      else _get_parent_output_tag_name rest outputs
    | none => _get_parent_output_tag_name rest outputs

/-- The accumulator of the traversal: the `inputs` and `outputs` dicts and the
`labels` defaultdict (output name → ordered value → attrs map). -/
structure ParseState where
  inputs : List (String × InputTagInfo)
  outputs : List (String × OutputTagInfo)
  labels : List (String × List (String × AttrMap))
deriving Repr

/-- Models `value.lstrip` on the dollar character: drops every leading `$`. -/
def lstripDollar (s : String) : String :=
  String.mk (s.data.dropWhile (fun c => c == Char.ofNat 36))

/-- Helper for `splitComma`: accumulate the current field (reversed). -/
def splitCommaAux : List Char → List Char → List String
  | [], acc => [String.mk acc.reverse]
  | c :: cs, acc =>
    if c = Char.ofNat 44 then String.mk acc.reverse :: splitCommaAux cs []
    else splitCommaAux cs (c :: acc)

/-- Models the Python comma split `s.split`: splits on every comma; the empty string yields
`[""]` and a trailing comma yields a trailing empty field. -/
def splitComma (s : String) : List String := splitCommaAux s.data []

/-- The classification step of the loop body: record an output tag, else an
input tag (`elif`: output classification takes precedence), else nothing. -/
def classifyTag (tag : String) (attrs : AttrMap) (st : ParseState) : ParseState :=
  if _is_output_tag tag attrs then
    let tag_info : OutputTagInfo :=
      { type := tag,
        to_name := splitComma ((attrGet attrs "toName").getD ""),
        conditionals := getConditionals attrs }
    { st with outputs := updAssoc st.outputs ((attrGet attrs "name").getD "") tag_info }
  else if _is_input_tag attrs then
    let in_info : InputTagInfo :=
      { type := tag, value := lstripDollar ((attrGet attrs "value").getD "") }
    { st with inputs := updAssoc st.inputs ((attrGet attrs "name").getD "") in_info }
  else st

/-- Models `actual_value = tag.attrib.get(alias) or tag.attrib.get(value)`:
the Python `or` picks the first truthy (present and non-empty) operand. -/
def actualValue (attrs : AttrMap) : Option String :=
  match attrGet attrs "alias" with
  | some a => if a.isEmpty then attrGet attrs "value" else some a
  | none => attrGet attrs "value"

/-- The label-recording tail of the loop body (the part after the
`if tag.tag not in _LABEL_TAGS: continue` guard), acting on the state left by
the classification step: resolve the owning output tag and upsert
`labels[parent_name][actual_value] = attrs`, skipping a falsy value. -/
def labelStep (tag : String) (attrs : AttrMap) (ancestors : List AttrMap)
    (st : ParseState) : ParseState :=
  if _LABEL_TAGS.contains tag then
    match _get_parent_output_tag_name ancestors st.outputs with
    | none => st
    | some parent_name =>
      match actualValue attrs with
      | none => st
      | some v =>
        if v.isEmpty then st
        else
          let m := (lookupAssoc st.labels parent_name).getD []
          { st with labels := updAssoc st.labels parent_name (updAssoc m v attrs) }
  else st

/-- One loop-body iteration of `for tag in xml_tree.iter()`: classify the
node, then run the label-recording tail against the already-updated state
(so the owner lookup sees the outputs recorded so far, this node included). -/
def processTag (tag : String) (attrs : AttrMap) (ancestors : List AttrMap)
    (st : ParseState) : ParseState :=
  labelStep tag attrs ancestors (classifyTag tag attrs st)

inductive XNode where
  | node (tag : String) (attrib : AttrMap) (children : List XNode)
deriving Repr

mutual

/-- Document-order (pre-order) traversal threading the parse state, with the
ancestor attribute chain (nearest first) standing in for `getparent()`. -/
def visitNode (ancestors : List AttrMap) (st : ParseState) : XNode → ParseState
  | .node tag attrs children =>
    visitList (attrs :: ancestors) (processTag tag attrs ancestors st) children

def visitList (ancestors : List AttrMap) (st : ParseState) :
    List XNode → ParseState
  | [] => st
  | c :: cs => visitList ancestors (visitNode ancestors st c) cs

end

structure SchemaEntry where
  type : String
  to_name : List String
  conditionals : Option Conditional
  inputs : List InputTagInfo
  labels : List String
  labels_attrs : List (String × AttrMap)
deriving Repr, DecidableEq

/-- The inner loop of the second pass: for each `to_name` entry, append the input
descriptor when the name is a recorded input tag, `continue` otherwise. -/
def collectInputs (inputs : List (String × InputTagInfo)) :
    List String → List InputTagInfo
  | [] => []
  | n :: ns =>
    match lookupAssoc inputs n with
    | none => collectInputs inputs ns
    | some info => info :: collectInputs inputs ns

/-- The second pass over the recorded output tags: attach `inputs`, `labels`
(the keys of the label map in insertion order) and `labels_attrs` (the map itself;
the defaultdict yields an empty map for an output tag with no labels). -/
def finalizeOutputs (st : ParseState) : List (String × SchemaEntry) :=
  st.outputs.map (fun p =>
    let tagLabels := (lookupAssoc st.labels p.1).getD []
    (p.1,
      { type := p.2.type, to_name := p.2.to_name,
        conditionals := p.2.conditionals,
        inputs := collectInputs st.inputs p.2.to_name,
        labels := tagLabels.map (fun q => q.1),
        labels_attrs := tagLabels }))

/-- The whole body of `parse_config` after a successful XML parse. -/
def buildSchema (root : XNode) : List (String × SchemaEntry) :=
  finalizeOutputs (visitNode [] ⟨[], [], []⟩ root)

/-- Outcome of the external XML parser (`etree.fromstring`): a well-formedness
diagnostic or the parsed tree. -/
inductive XMLParseOutcome where
  | syntaxError (msg : String)
  | tree (root : XNode)

/-- Models `parse_config(config_string)`, parameterised by the external XML parser.
A falsy config (absent or empty string) yields the empty schema; an XML syntax
error is re-raised as `ValueError(str(e))` (called `MalformedConfigError` in the spec),
modelled as `Except.error` carrying the diagnostic. -/
def parse_config :
    Option String → (String → XMLParseOutcome) →
      Except String (List (String × SchemaEntry))
  | none, _ => .ok []
  | some s, fromstring =>
    if s.isEmpty then .ok []
    else
      match fromstring s with
      | .syntaxError e => .error e
      | .tree root => .ok (buildSchema root)

/-! ## Example configuration trees used by the concrete test-point theorems -/

/-- The ownership-resolution example from the spec:
`<Choices name="c1" toName="t1"><View><Choice value="x"/></View></Choices>`. -/
def exTreeOwnership : XNode :=
  .node "Choices" [("name", "c1"), ("toName", "t1")]
    [.node "View" [] [.node "Choice" [("value", "x")] []]]

/-- Label order example: label tags `L1, L2, L1` under one output tag, the two
`L1` occurrences carrying different attributes. -/
def exTreeLabelOrder : XNode :=
  .node "View" []
    [.node "Labels" [("name", "lab"), ("toName", "txt")]
      [.node "Label" [("value", "L1"), ("background", "red")] [],
       .node "Label" [("value", "L2")] [],
       .node "Label" [("value", "L1"), ("background", "blue")] []]]

/-- A `Filter` tag carrying both `name` and `toName`. -/
def exTreeFilter : XNode :=
  .node "View" [] [.node "Filter" [("name", "f"), ("toName", "x")] []]

/-- Output tag `T` with `to_name = ["A","B"]` where only `A` is a declared
input tag. -/
def exTreeInputs : XNode :=
  .node "View" []
    [.node "Text" [("name", "A"), ("value", "$text")] [],
     .node "Choices" [("name", "T"), ("toName", "A,B")]
       [.node "Choice" [("value", "x")] []]]

/-- A node satisfying both classification conditions at once (`name`, `toName`
and `value` set, kind not `Filter`), referenced from the `to_name` of another
output tag. -/
def exTreeBothClasses : XNode :=
  .node "View" []
    [.node "Choices" [("name", "A"), ("toName", "t"), ("value", "v")] [],
     .node "Labels" [("name", "T"), ("toName", "A")] []]

/-! ## Helper lemmas about the SpanTagger -/

theorem spanFalsy_eq_false_of_hasLabels {s : Span} (h : hasLabels s = true) :
    spanFalsy s = false := by
  unfold hasLabels at h
  cases hl : s.labels? with
  | none => rw [hl] at h; cases h
  | some l => simp [spanFalsy, hl]

theorem tagTokens_length (toks : List (String × Nat)) (st : TagState) :
    (tagTokens toks st).length = toks.length := by
  induction toks generalizing st with
  | nil => rfl
  | cons t rest ih =>
    obtain ⟨tok, tstart⟩ := t
    simp [tagTokens, ih]

/-- The overlap-branch behaviour of the tag decision, for a state whose cached
bounds agree with its current span (the invariant the loop maintains). -/
theorem tagDecision_overlap {st : TagState} {token_start token_end : Int}
    (hs : st.span_start = spanStartD st.span) (he : st.span_end = spanEndD st.span)
    (hl : hasLabels st.span = true)
    (h1 : spanStartD st.span ≤ token_end) (h2 : spanEndD st.span ≥ token_start) :
    tagDecision token_start token_end st = (st.pfx ++ headLabelD st.span, "I-") := by
  have hfl : spanFalsy st.span = false := spanFalsy_eq_false_of_hasLabels hl
  unfold tagDecision
  rw [if_neg, if_pos]
  · exact ⟨by omega, by omega⟩
  · push_neg
    refine ⟨by simp [hfl], by omega, by simp [hl]⟩

/-! ## C1 and C5 -/

/-- C1: during span-aware tagging, with `span_end = span.end - 1` and
`token_end = token_start + len(token) - 1`, a current span with a non-empty
labels list satisfying `span_start <= token_end` and `span_end >= token_start`
tags the token `prefix + first label`; in particular a labeled span whose
exclusive `end` equals `token_start + 1` (covering only the first character
of the token) still tags the whole token. -/
theorem claimC1_overlap_tags_whole_token
    (sp : Span) (rest : List Span) (pfx : String) (token : String)
    (token_start : Int) (l : String) (ls : List String)
    (hl : sp.labels? = some (l :: ls))
    (h1 : spanStartD sp ≤ token_start + (token.length : Int) - 1)
    (h2 : spanEndD sp ≥ token_start) :
    tagDecision token_start (token_start + (token.length : Int) - 1)
        { span := sp, spans := rest, span_start := spanStartD sp,
          span_end := spanEndD sp, pfx := pfx }
      = (pfx ++ l, "I-") := by
  have hlab : hasLabels sp = true := by simp [hasLabels, hl]
  have := @tagDecision_overlap
    { span := sp, spans := rest, span_start := spanStartD sp,
      span_end := spanEndD sp, pfx := pfx }
    token_start (token_start + (token.length : Int) - 1)
    rfl rfl hlab h1 h2
  simpa [headLabelD, hl] using this

/-- C1 witness: the span `{start: 0, end: 1, labels: ["PER"]}` ends exactly at
`token_start + 1` of the five-character token `"Hello"` at offset 0 — it covers
only the first character of the token, yet the whole token is tagged `B-PER`. -/
theorem claimC1_witness :
    tagDecision 0 (0 + (("Hello".length : Int)) - 1)
        { span := ⟨some 0, some 1, some ["PER"]⟩, spans := [],
          span_start := spanStartD ⟨some 0, some 1, some ["PER"]⟩,
          span_end := spanEndD ⟨some 0, some 1, some ["PER"]⟩, pfx := "B-" }
      = ("B-" ++ "PER", "I-") :=
  claimC1_overlap_tags_whole_token ⟨some 0, some 1, some ["PER"]⟩ [] "B-" "Hello"
    0 "PER" [] rfl (by decide) (by decide)

/-- C5: when the span list is empty, or some span lacks a `start` or an `end`,
`create_tokens_and_tags` returns the token texts paired with an all-`"O"` tag
list of the same length (and, being a total function, never fails). -/
theorem claimC5_fallback_all_O
    (toks : List (String × Nat)) (spans : List Span)
    (h : spans = [] ∨ ∃ s ∈ spans, s.start? = none ∨ s.stop? = none) :
    create_tokens_and_tags toks spans
      = (toks.map Prod.fst, List.replicate toks.length "O") := by
  have hv : spansValid spans = false := by
    rcases h with h | ⟨s, hs, h⟩
    · simp [spansValid, h]
    · unfold spansValid
      have : spans.all (fun s => s.start?.isSome && s.stop?.isSome) = false := by
        rw [List.all_eq_false]
        exact ⟨s, hs, by rcases h with h | h <;> simp [h]⟩
      simp [this]
  simp [create_tokens_and_tags, hv]

/-- C5 witness: tagging `"hello world"` (tokenized as `hello`@0, `world`@6)
with an empty span list yields tokens `["hello","world"]` and tags
`["O","O"]`. -/
theorem claimC5_witness :
    create_tokens_and_tags [("hello", 0), ("world", 6)] []
      = (["hello", "world"], ["O", "O"]) := by
  rw [claimC5_fallback_all_O [("hello", 0), ("world", 6)] [] (Or.inl rfl)]
  rfl

/-! ## Helper lemmas for the BIO discipline (C6) -/

theorem tagDecision_O_keeps_pfx {st : TagState} {ts te : Int}
    (hp : st.pfx = "B-" ∨ st.pfx = "I-")
    (ho : (tagDecision ts te st).1 = "O") :
    (tagDecision ts te st).2 = st.pfx := by
  by_cases h1 : spanFalsy st.span = true ∨ te < st.span_start ∨ hasLabels st.span = false
  · simp [tagDecision, h1]
  · by_cases h2 : st.span_start ≤ te ∧ st.span_end ≥ ts
    · exfalso
      have hv : (tagDecision ts te st).1 = st.pfx ++ headLabelD st.span := by
        simp [tagDecision, h1, h2]
      rw [hv] at ho
      have hlen := congrArg String.length ho
      rcases hp with hp | hp <;> rw [hp] at hlen <;>
        rw [String.length_append] at hlen <;>
        simp only [show ("B-" : String).length = 2 from rfl,
          show ("I-" : String).length = 2 from rfl,
          show ("O" : String).length = 1 from rfl] at hlen <;>
        omega
    · simp [tagDecision, h1, h2]

theorem advancePhase_pfx_reset {st : TagState} {ts : Int}
    (h1 : st.spans ≠ []) (h2 : ts > st.span_end) :
    (advancePhase ts st).pfx = "B-" := by
  unfold advancePhase
  rw [if_pos h2]
  cases hs : st.spans with
  | nil => exact absurd hs h1
  | cons s rest => rfl

/-- C6: the overlap branch emits `prefix + first_label` and flips `prefix` to
`"I-"`; an `"O"` decision leaves `prefix` unchanged; advancing to a new span
resets `prefix` to `"B-"` (so two distinct spans never merge into one `I-`
run); and every token receives exactly one tag (the tag list is positionally
aligned with the token list). -/
theorem claimC6_bio_discipline :
    (∀ (st : TagState) (ts te : Int),
        st.span_start = spanStartD st.span → st.span_end = spanEndD st.span →
        hasLabels st.span = true → st.span_start ≤ te → st.span_end ≥ ts →
        tagDecision ts te st = (st.pfx ++ headLabelD st.span, "I-"))
  ∧ (∀ (st : TagState) (ts te : Int),
        (st.pfx = "B-" ∨ st.pfx = "I-") → (tagDecision ts te st).1 = "O" →
        (tagDecision ts te st).2 = st.pfx)
  ∧ (∀ (st : TagState) (ts : Int), st.spans ≠ [] → ts > st.span_end →
        (advancePhase ts st).pfx = "B-")
  ∧ (∀ (toks : List (String × Nat)) (spans : List Span),
        ((create_tokens_and_tags toks spans).2).length
          = ((create_tokens_and_tags toks spans).1).length) := by
  refine ⟨?_, ?_, ?_, ?_⟩
  · intro st ts te hs he hl h1 h2
    exact tagDecision_overlap hs he hl (by omega) (by omega)
  · intro st ts te hp ho
    exact tagDecision_O_keeps_pfx hp ho
  · intro st ts h1 h2
    exact advancePhase_pfx_reset h1 h2
  · intro toks spans
    unfold create_tokens_and_tags
    by_cases hv : spansValid spans = true
    · rw [if_pos hv]
      cases hs : sortByStart spans with
      | nil => simp
      | cons sp rest => simp [tagTokens_length]
    · rw [if_neg hv]
      simp

/-- C6 witness: concrete instances of the three conditional conjuncts — an
overlapping labeled span emits `B- + first label` and flips the prefix, an
out-of-reach span keeps the prefix on an `"O"` decision, and a span advance
resets the prefix to `"B-"`. -/
theorem claimC6_witness :
    tagDecision 0 4 ⟨⟨some 0, some 5, some ["PER", "X"]⟩, [], 0, 4, "B-"⟩
        = ("B-" ++ headLabelD ⟨some 0, some 5, some ["PER", "X"]⟩, "I-")
  ∧ (tagDecision 0 4 ⟨⟨some 10, some 12, some ["X"]⟩, [], 10, 11, "B-"⟩).2
        = TagState.pfx ⟨⟨some 10, some 12, some ["X"]⟩, [], 10, 11, "B-"⟩
  ∧ (advancePhase 5 ⟨⟨some 0, some 3, some ["X"]⟩,
        [⟨some 4, some 7, some ["Y"]⟩], 0, 2, "I-"⟩).pfx = "B-" :=
  ⟨claimC6_bio_discipline.1 ⟨⟨some 0, some 5, some ["PER", "X"]⟩, [], 0, 4, "B-"⟩
      0 4 (by decide) (by decide) (by decide) (by decide) (by decide),
   claimC6_bio_discipline.2.1 ⟨⟨some 10, some 12, some ["X"]⟩, [], 10, 11, "B-"⟩
      0 4 (Or.inl rfl) (by decide),
   claimC6_bio_discipline.2.2.1 ⟨⟨some 0, some 3, some ["X"]⟩,
      [⟨some 4, some 7, some ["Y"]⟩], 0, 2, "I-"⟩ 5 (by decide) (by decide)⟩

/-! ## Helper lemmas for span exhaustion (C7) -/

/-- The loop invariant tying a `TagState` to the batch of sorted spans `S`:
the current span and all remaining spans come from `S`, and the cached
`span_end` agrees with the current span. -/
def SpanStateOK (S : List Span) (st : TagState) : Prop :=
  st.span ∈ S ∧ (∀ s ∈ st.spans, s ∈ S) ∧ st.span_end = spanEndD st.span

theorem advanceSpans_mem {S : List Span} (t : Int) :
    ∀ (rest : List Span) (sp : Span), sp ∈ S → (∀ s ∈ rest, s ∈ S) →
      (advanceSpans t sp rest).1 ∈ S ∧ ∀ s ∈ (advanceSpans t sp rest).2, s ∈ S := by
  intro rest
  induction rest with
  | nil =>
    intro sp h1 _
    exact ⟨h1, by intro s hs; cases hs⟩
  | cons s rest ih =>
    intro sp h1 h2
    unfold advanceSpans
    by_cases h : t ≤ spanEndD s
    · rw [if_pos h]
      exact ⟨h2 s (by simp), fun x hx => h2 x (by simp [hx])⟩
    · rw [if_neg h]
      exact ih s (h2 s (by simp)) (fun x hx => h2 x (by simp [hx]))

theorem advancePhase_ok {S : List Span} {st : TagState} (t : Int)
    (h : SpanStateOK S st) : SpanStateOK S (advancePhase t st) := by
  unfold advancePhase
  by_cases hgt : t > st.span_end
  · rw [if_pos hgt]
    cases hs : st.spans with
    | nil => exact h
    | cons s rest =>
      have hmem := advanceSpans_mem t (s :: rest) st.span h.1
        (fun x hx => h.2.1 x (by rw [hs]; exact hx))
      exact ⟨hmem.1, hmem.2, rfl⟩
  · rw [if_neg hgt]
    exact h

theorem tagDecision_O_of_exhausted {S : List Span} {st : TagState} {t te : Int}
    (h : SpanStateOK S st) (hall : ∀ s ∈ S, spanEndD s < t) :
    (tagDecision t te (advancePhase t st)).1 = "O" := by
  have h' := advancePhase_ok t h
  have hlt : (advancePhase t st).span_end < t := by
    rw [h'.2.2]
    exact hall _ h'.1
  by_cases h1 : spanFalsy (advancePhase t st).span = true
      ∨ te < (advancePhase t st).span_start
      ∨ hasLabels (advancePhase t st).span = false
  · simp [tagDecision, h1]
  · have h2 : ¬((advancePhase t st).span_start ≤ te
        ∧ (advancePhase t st).span_end ≥ t) := by
      rintro ⟨_, hge⟩
      omega
    simp [tagDecision, h1, h2]

theorem tagTokens_get_O {S : List Span} :
    ∀ (toks : List (String × Nat)) (i : Nat) (st : TagState) (hi : i < toks.length),
      SpanStateOK S st →
      (∀ s ∈ S, spanEndD s < (((toks.get ⟨i, hi⟩).2 : Nat) : Int)) →
      (tagTokens toks st).get? i = some "O" := by
  intro toks
  induction toks with
  | nil =>
    intro i st hi
    exact absurd hi (by simp)
  | cons hd rest ih =>
    intro i st hi hst hall
    obtain ⟨tok, tstart⟩ := hd
    cases i with
    | zero =>
      have hO : (tagDecision (tstart : Int) ((tstart : Int) + (tok.length : Int) - 1)
          (advancePhase (tstart : Int) st)).1 = "O" :=
        tagDecision_O_of_exhausted hst (by simpa using hall)
      simpa [tagTokens] using hO
    | succ i =>
      have hi' : i < rest.length := by simpa using hi
      have hst' : SpanStateOK S
          { advancePhase (tstart : Int) st with
            pfx := (tagDecision (tstart : Int) ((tstart : Int) + (tok.length : Int) - 1)
              (advancePhase (tstart : Int) st)).2 } := by
        have h' := advancePhase_ok (tstart : Int) hst
        exact ⟨h'.1, h'.2.1, h'.2.2⟩
      have hall' : ∀ s ∈ S, spanEndD s < (((rest.get ⟨i, hi'⟩).2 : Nat) : Int) := by
        simpa using hall
      simpa [tagTokens] using ih i _ hi' hst' hall'

theorem mem_of_mem_insertByStart {x y : Span} {l : List Span}
    (h : y ∈ insertByStart x l) : y = x ∨ y ∈ l := by
  induction l with
  | nil => simpa [insertByStart] using h
  | cons z zs ih =>
    unfold insertByStart at h
    by_cases hle : spanStartD z < spanStartD x
    · rw [if_pos hle] at h
      rcases List.mem_cons.mp h with h | h
      · exact Or.inr (by simp [h])
      · rcases ih h with h | h
        · exact Or.inl h
        · exact Or.inr (by simp [h])
    · rw [if_neg hle] at h
      rcases List.mem_cons.mp h with h | h
      · exact Or.inl h
      · exact Or.inr h

theorem mem_of_mem_sortByStart {y : Span} :
    ∀ {l : List Span}, y ∈ sortByStart l → y ∈ l := by
  intro l
  induction l with
  | nil => intro h; simp [sortByStart] at h
  | cons x xs ih =>
    intro h
    unfold sortByStart at h
    rcases mem_of_mem_insertByStart h with h | h
    · simp [h]
    · exact List.mem_cons.mpr (Or.inr (ih h))

/-- C7: a token whose start offset is strictly greater than `span.end - 1` of
every span in the batch is tagged `"O"`: once the sweep has passed every span,
no remaining token receives a `B-` or `I-` tag. -/
theorem claimC7_past_all_spans_tagged_O
    (toks : List (String × Nat)) (spans : List Span)
    (i : Nat) (hi : i < toks.length)
    (h : ∀ s ∈ spans, spanEndD s < (((toks.get ⟨i, hi⟩).2 : Nat) : Int)) :
    ((create_tokens_and_tags toks spans).2).get? i = some "O" := by
  unfold create_tokens_and_tags
  by_cases hv : spansValid spans = true
  · rw [if_pos hv]
    cases hs : sortByStart spans with
    | nil =>
      simp [List.get?_eq_get, List.getElem_replicate, hi]
    | cons sp rest =>
      refine tagTokens_get_O (S := sp :: rest) toks i _ hi
        ⟨by simp, fun x hx => by simp [hx], rfl⟩ ?_
      intro s hsm
      refine h s ?_
      rw [← hs] at hsm
      exact mem_of_mem_sortByStart hsm
  · rw [if_neg hv]
    simp [List.get?_eq_get, List.getElem_replicate, hi]

/-- C7 witness: with spans `{0,3,[X]}` and `{4,6,[Y]}`, the token `"c"` at
offset 8 starts past `end - 1` of both spans and is tagged `"O"`. -/
theorem claimC7_witness :
    (∀ s ∈ [(⟨some 0, some 3, some ["X"]⟩ : Span), ⟨some 4, some 6, some ["Y"]⟩],
        spanEndD s
          < ((([("a", 0), ("b", 4), ("c", 8)].get ⟨2, by decide⟩).2 : Nat) : Int))
  ∧ ((create_tokens_and_tags [("a", 0), ("b", 4), ("c", 8)]
        [⟨some 0, some 3, some ["X"]⟩, ⟨some 4, some 6, some ["Y"]⟩]).2).get? 2
      = some "O" :=
  ⟨by decide,
   claimC7_past_all_spans_tagged_O [("a", 0), ("b", 4), ("c", 8)]
     [⟨some 0, some 3, some ["X"]⟩, ⟨some 4, some 6, some ["Y"]⟩] 2 (by decide)
     (by decide)⟩

/-! ## Helper lemmas about the ConfigParser state -/

theorem classifyTag_labels (tag : String) (attrs : AttrMap) (st : ParseState) :
    (classifyTag tag attrs st).labels = st.labels := by
  unfold classifyTag
  split
  · rfl
  · split <;> rfl

theorem classifyTag_inputs_of_output {tag : String} {attrs : AttrMap}
    (st : ParseState) (h : _is_output_tag tag attrs = true) :
    (classifyTag tag attrs st).inputs = st.inputs := by
  unfold classifyTag
  rw [if_pos h]

theorem classifyTag_outputs_of_not_output {tag : String} {attrs : AttrMap}
    (st : ParseState) (h : _is_output_tag tag attrs = false) :
    (classifyTag tag attrs st).outputs = st.outputs := by
  unfold classifyTag
  rw [if_neg (by simp [h])]
  split <;> rfl

theorem labelStep_inputs_eq (tag : String) (attrs : AttrMap)
    (anc : List AttrMap) (st : ParseState) :
    (labelStep tag attrs anc st).inputs = st.inputs := by
  unfold labelStep
  by_cases hl : _LABEL_TAGS.contains tag = true
  · rw [if_pos hl]
    cases _get_parent_output_tag_name anc st.outputs with
    | none => rfl
    | some pn =>
      cases actualValue attrs with
      | none => rfl
      | some v => by_cases hv : v.isEmpty = true <;> simp [hv]
  · rw [if_neg hl]

theorem labelStep_outputs_eq (tag : String) (attrs : AttrMap)
    (anc : List AttrMap) (st : ParseState) :
    (labelStep tag attrs anc st).outputs = st.outputs := by
  unfold labelStep
  by_cases hl : _LABEL_TAGS.contains tag = true
  · rw [if_pos hl]
    cases _get_parent_output_tag_name anc st.outputs with
    | none => rfl
    | some pn =>
      cases actualValue attrs with
      | none => rfl
      | some v => by_cases hv : v.isEmpty = true <;> simp [hv]
  · rw [if_neg hl]

theorem processTag_inputs_eq (tag : String) (attrs : AttrMap)
    (anc : List AttrMap) (st : ParseState) :
    (processTag tag attrs anc st).inputs = (classifyTag tag attrs st).inputs := by
  unfold processTag
  exact labelStep_inputs_eq tag attrs anc (classifyTag tag attrs st)

theorem processTag_outputs_eq (tag : String) (attrs : AttrMap)
    (anc : List AttrMap) (st : ParseState) :
    (processTag tag attrs anc st).outputs = (classifyTag tag attrs st).outputs := by
  unfold processTag
  exact labelStep_outputs_eq tag attrs anc (classifyTag tag attrs st)

theorem lookupAssoc_cons_pos {β : Type} {p : String × β} {ps : List (String × β)}
    {k : String} (h : (p.1 == k) = true) :
    lookupAssoc (p :: ps) k = some p.2 := by
  unfold lookupAssoc
  rw [List.find?_cons]
  simp [h]

theorem lookupAssoc_cons_neg {β : Type} {p : String × β} {ps : List (String × β)}
    {k : String} (h : (p.1 == k) = false) :
    lookupAssoc (p :: ps) k = lookupAssoc ps k := by
  unfold lookupAssoc
  rw [List.find?_cons]
  simp [h]

theorem lookupAssoc_map_upd {β : Type} (k : String) (v : β) :
    ∀ (m : List (String × β)), hasKey m k = true →
      lookupAssoc (m.map (fun p => if p.1 == k then (k, v) else p)) k = some v := by
  intro m
  induction m with
  | nil => intro h; simp [hasKey] at h
  | cons p ps ih =>
    intro h
    rw [List.map_cons]
    by_cases hp : p.1 = k
    · have hb : (p.1 == k) = true := by simp [hp]
      rw [if_pos hb]
      exact lookupAssoc_cons_pos (by simp)
    · have hb : (p.1 == k) = false := by simp [hp]
      rw [if_neg (by simp [hb])]
      rw [lookupAssoc_cons_neg hb]
      apply ih
      unfold hasKey at h ⊢
      simp only [List.any_cons, hb, Bool.false_or] at h
      exact h

theorem lookupAssoc_append_single {β : Type} (k : String) (v : β) :
    ∀ (m : List (String × β)), hasKey m k = false →
      lookupAssoc (m ++ [(k, v)]) k = some v := by
  intro m
  induction m with
  | nil =>
    intro _
    exact lookupAssoc_cons_pos (by simp)
  | cons p ps ih =>
    intro h
    unfold hasKey at h
    simp only [List.any_cons, Bool.or_eq_false_iff] at h
    rw [List.cons_append, lookupAssoc_cons_neg h.1]
    exact ih h.2

/-- Updating a key always makes it look up to the new value. -/
theorem lookupAssoc_updAssoc_self {β : Type} (m : List (String × β))
    (k : String) (v : β) :
    lookupAssoc (updAssoc m k v) k = some v := by
  unfold updAssoc
  by_cases h : m.any (fun p => p.1 == k) = true
  · rw [if_pos h]
    exact lookupAssoc_map_upd k v m h
  · rw [if_neg h]
    exact lookupAssoc_append_single k v m (by unfold hasKey; exact Bool.eq_false_iff.mpr h)

theorem keys_map_upd {β : Type} (k : String) (v : β) :
    ∀ m : List (String × β),
      (m.map (fun p => if p.1 == k then (k, v) else p)).map Prod.fst
        = m.map Prod.fst := by
  intro m
  induction m with
  | nil => rfl
  | cons p ps ih =>
    rw [List.map_cons, List.map_cons, List.map_cons, ih]
    by_cases hp : p.1 = k
    · rw [if_pos (by simp [hp])]
      simp [hp]
    · rw [if_neg (by simp [hp])]

/-- Updating an existing key leaves the key sequence (hence every first-seen
position) unchanged. -/
theorem keys_updAssoc_of_hasKey {β : Type} {m : List (String × β)} {k : String}
    (v : β) (h : hasKey m k = true) :
    (updAssoc m k v).map Prod.fst = m.map Prod.fst := by
  unfold hasKey at h
  unfold updAssoc
  rw [if_pos h]
  exact keys_map_upd k v m

/-- Inserting a fresh key appends it at the end of the key sequence. -/
theorem keys_updAssoc_of_fresh {β : Type} {m : List (String × β)} {k : String}
    (v : β) (h : hasKey m k = false) :
    (updAssoc m k v).map Prod.fst = m.map Prod.fst ++ [k] := by
  unfold hasKey at h
  unfold updAssoc
  rw [if_neg (by simp [h])]
  simp

theorem hasKey_eq_isSome_lookupAssoc {β : Type} (m : List (String × β)) (k : String) :
    hasKey m k = (lookupAssoc m k).isSome := by
  induction m with
  | nil => rfl
  | cons p ps ih =>
    by_cases hp : p.1 = k
    · have hb : (p.1 == k) = true := by simp [hp]
      rw [lookupAssoc_cons_pos hb]
      unfold hasKey
      simp [List.any_cons, hb]
    · have hb : (p.1 == k) = false := by simp [hp]
      rw [lookupAssoc_cons_neg hb]
      unfold hasKey at ih ⊢
      simp [List.any_cons, hb, ih]

/-! ## C2, C3, C4 -/

/-- C2: the owning output tag of a `Label`/`Choice` node is found by walking up the
parent chain to the nearest ancestor whose `name` is already recorded in the
output map (wrapper tags without a recorded name are skipped); with no such
ancestor the node contributes no label; and the example
`<Choices name="c1" toName="t1"><View><Choice value="x"/></View></Choices>`
parses to labels `["x"]` under `"c1"`. -/
theorem claimC2_ownership_resolution :
    (∀ (a : AttrMap) (rest : List AttrMap)
        (outputs : List (String × OutputTagInfo)) (n : String),
        attrGet a "name" = some n → hasKey outputs n = true →
        _get_parent_output_tag_name (a :: rest) outputs = some n)
  ∧ (∀ (a : AttrMap) (rest : List AttrMap)
        (outputs : List (String × OutputTagInfo)),
        (∀ n, attrGet a "name" = some n → hasKey outputs n = false) →
        _get_parent_output_tag_name (a :: rest) outputs
          = _get_parent_output_tag_name rest outputs)
  ∧ (∀ (tag : String) (attrs : AttrMap) (anc : List AttrMap) (st : ParseState),
        _get_parent_output_tag_name anc (classifyTag tag attrs st).outputs = none →
        (processTag tag attrs anc st).labels = st.labels)
  ∧ ((buildSchema exTreeOwnership).map (fun p => (p.1, p.2.labels))
        = [("c1", ["x"])]) := by
  refine ⟨?_, ?_, ?_, by decide⟩
  · intro a rest outputs n hn hk
    unfold _get_parent_output_tag_name
    rw [hn]
    simp [hk]
  · intro a rest outputs h
    have hstep : _get_parent_output_tag_name (a :: rest) outputs
        = match attrGet a "name" with
          | some n =>
            if hasKey outputs n then some n
            else _get_parent_output_tag_name rest outputs
          | none => _get_parent_output_tag_name rest outputs := rfl
    rw [hstep]
    cases hn : attrGet a "name" with
    | none => rfl
    | some n => simp [h n hn]
  · intro tag attrs anc st h
    unfold processTag labelStep
    by_cases hl : _LABEL_TAGS.contains tag = true
    · rw [if_pos hl, h]
      exact classifyTag_labels tag attrs st
    · rw [if_neg hl]
      exact classifyTag_labels tag attrs st

/-- C2 witness: the nearest recorded ancestor is returned for a concrete
chain, and a `Choice` with no recorded ancestor leaves the label map of the
empty state unchanged. -/
theorem claimC2_witness :
    _get_parent_output_tag_name [[("name", "c1")]]
        [("c1", ⟨"Choices", ["t1"], none⟩)] = some "c1"
  ∧ (processTag "Choice" [("value", "x")] [] ⟨[], [], []⟩).labels
        = ParseState.labels ⟨[], [], []⟩ :=
  ⟨claimC2_ownership_resolution.1 [("name", "c1")] []
      [("c1", ⟨"Choices", ["t1"], none⟩)] "c1" rfl (by decide),
   claimC2_ownership_resolution.2.2.1 "Choice" [("value", "x")] [] ⟨[], [], []⟩
      (by decide)⟩

/-- C3: the labels of an output tag are kept in first-discovery order — a
fresh label value is appended at the end, a duplicate keeps its first-seen
position while its attributes are overwritten — and the `L1, L2, L1` example
yields `labels == ["L1","L2"]` with the attrs of `L1` taken from the second
occurrence. -/
theorem claimC3_label_first_seen_order :
    (∀ (m : List (String × AttrMap)) (k : String) (v : AttrMap),
        hasKey m k = true →
        (updAssoc m k v).map Prod.fst = m.map Prod.fst
          ∧ lookupAssoc (updAssoc m k v) k = some v)
  ∧ (∀ (m : List (String × AttrMap)) (k : String) (v : AttrMap),
        hasKey m k = false →
        (updAssoc m k v).map Prod.fst = m.map Prod.fst ++ [k])
  ∧ ((buildSchema exTreeLabelOrder).map (fun p => (p.1, p.2.labels))
        = [("lab", ["L1", "L2"])])
  ∧ ((lookupAssoc (buildSchema exTreeLabelOrder) "lab").map
        (fun e => lookupAssoc e.labels_attrs "L1")
        = some (some [("value", "L1"), ("background", "blue")])) := by
  refine ⟨?_, ?_, by decide, by decide⟩
  · intro m k v h
    exact ⟨keys_updAssoc_of_hasKey v h, lookupAssoc_updAssoc_self m k v⟩
  · intro m k v h
    exact keys_updAssoc_of_fresh v h

/-- C3 witness: updating the duplicate `L1` in a concrete two-entry label map
keeps the key order `["L1","L2"]` and overwrites the attributes of `L1`. -/
theorem claimC3_witness :
    (updAssoc [("L1", [("value", "L1"), ("background", "red")]),
        ("L2", [("value", "L2")])] "L1"
        [("value", "L1"), ("background", "blue")]).map Prod.fst
      = [("L1", [("value", "L1"), ("background", "red")]),
          ("L2", [("value", "L2")])].map Prod.fst
  ∧ lookupAssoc (updAssoc [("L1", [("value", "L1"), ("background", "red")]),
        ("L2", [("value", "L2")])] "L1"
        [("value", "L1"), ("background", "blue")]) "L1"
      = some [("value", "L1"), ("background", "blue")] :=
  claimC3_label_first_seen_order.1
    [("L1", [("value", "L1"), ("background", "red")]), ("L2", [("value", "L2")])]
    "L1" [("value", "L1"), ("background", "blue")] (by decide)

/-- C4: an absent or empty config yields the empty schema without failing; a
config the XML parser rejects fails with the parser diagnostic as the error
message; and every error the function can produce arises that way (it fails
for no other reason). -/
theorem claimC4_malformed_config (fromstring : String → XMLParseOutcome) :
    parse_config none fromstring = .ok []
  ∧ parse_config (some "") fromstring = .ok []
  ∧ (∀ (s e : String), s.isEmpty = false → fromstring s = .syntaxError e →
        parse_config (some s) fromstring = .error e)
  ∧ (∀ (cfg : Option String) (e : String),
        parse_config cfg fromstring = .error e →
        ∃ s, cfg = some s ∧ fromstring s = .syntaxError e) := by
  refine ⟨rfl, rfl, ?_, ?_⟩
  · intro s e hs hf
    have hstep : parse_config (some s) fromstring
        = if s.isEmpty then .ok []
          else match fromstring s with
            | .syntaxError d => .error d
            | .tree root => .ok (buildSchema root) := rfl
    rw [hstep, if_neg (by simp [hs]), hf]
  · intro cfg e h
    cases cfg with
    | none => exact absurd h (by simp [parse_config])
    | some s =>
      have hstep : parse_config (some s) fromstring
          = if s.isEmpty then .ok []
            else match fromstring s with
              | .syntaxError d => .error d
              | .tree root => .ok (buildSchema root) := rfl
      rw [hstep] at h
      by_cases hs : s.isEmpty = true
      · rw [if_pos hs] at h
        cases h
      · rw [if_neg hs] at h
        cases hf : fromstring s with
        | syntaxError m =>
          rw [hf] at h
          have hm : m = e := by injection h
          exact ⟨s, rfl, by rw [hf, hm]⟩
        | tree root =>
          rw [hf] at h
          cases h

/-- C4 witness: a concrete rejected config propagates the concrete diagnostic,
and that error indeed stems from the outcome of the XML parser. -/
theorem claimC4_witness :
    parse_config (some "<bad") (fun s => .syntaxError (s ++ ": not well-formed"))
      = .error "<bad: not well-formed"
  ∧ ∃ s, (some "<bad" : Option String) = some s
      ∧ (fun s => XMLParseOutcome.syntaxError (s ++ ": not well-formed")) s
          = .syntaxError "<bad: not well-formed" :=
  ⟨(claimC4_malformed_config _).2.2.1 "<bad" "<bad: not well-formed"
      (by decide) rfl,
   (claimC4_malformed_config _).2.2.2 (some "<bad") "<bad: not well-formed"
      ((claimC4_malformed_config _).2.2.1 "<bad" "<bad: not well-formed"
        (by decide) rfl)⟩

/-! ## C8, C9, C10 -/

theorem is_output_tag_filter_false (attrs : AttrMap) :
    _is_output_tag "Filter" attrs = false := by
  unfold _is_output_tag
  simp [_NOT_CONTROL_TAGS]

/-- C8: a node is classified as an output tag exactly when its `name` and
`toName` attributes are truthy and its kind is outside the exclusion set
`{Filter}`; it is recorded under its `name` with `to_name` the comma-split of
`toName`; and a `Filter` node never changes the output map, so it never
appears as a key of the returned Schema. -/
theorem claimC8_output_tag_classification :
    (∀ (tag : String) (attrs : AttrMap),
        _is_output_tag tag attrs = true
          ↔ (truthy (attrGet attrs "name") = true
              ∧ truthy (attrGet attrs "toName") = true
              ∧ tag ∉ _NOT_CONTROL_TAGS))
  ∧ (∀ (tag : String) (attrs : AttrMap) (st : ParseState),
        _is_output_tag tag attrs = true →
        lookupAssoc (classifyTag tag attrs st).outputs ((attrGet attrs "name").getD "")
          = some { type := tag,
                   to_name := splitComma ((attrGet attrs "toName").getD ""),
                   conditionals := getConditionals attrs })
  ∧ (∀ attrs : AttrMap, _is_output_tag "Filter" attrs = false)
  ∧ (∀ (attrs : AttrMap) (anc : List AttrMap) (st : ParseState),
        (processTag "Filter" attrs anc st).outputs = st.outputs)
  ∧ (hasKey (buildSchema exTreeFilter) "f" = false) := by
  refine ⟨?_, ?_, is_output_tag_filter_false, ?_, by decide⟩
  · intro tag attrs
    unfold _is_output_tag
    simp [List.contains]
    tauto
  · intro tag attrs st h
    unfold classifyTag
    rw [if_pos h]
    exact lookupAssoc_updAssoc_self _ _ _
  · intro attrs anc st
    rw [processTag_outputs_eq]
    exact classifyTag_outputs_of_not_output st (is_output_tag_filter_false attrs)

/-- C8 witness: classifying a concrete `Choices` output tag records its
descriptor (with `to_name = ["t1"]`) under its name in the output map. -/
theorem claimC8_witness :
    lookupAssoc (classifyTag "Choices" [("name", "c1"), ("toName", "t1")]
        ⟨[], [], []⟩).outputs
        ((attrGet [("name", "c1"), ("toName", "t1")] "name").getD "")
      = some { type := "Choices",
               to_name := splitComma
                 ((attrGet [("name", "c1"), ("toName", "t1")] "toName").getD ""),
               conditionals := getConditionals [("name", "c1"), ("toName", "t1")] } :=
  claimC8_output_tag_classification.2.1 "Choices" [("name", "c1"), ("toName", "t1")]
    ⟨[], [], []⟩ (by decide)

/-- C9: the second pass resolves each `to_name` entry in order, keeping
exactly the entries that name a recorded input tag (unresolvable entries are
skipped without failing); on the concrete example, output `T` with
`to_name = ["A","B"]` and only `A` declared as input ends up with exactly
the descriptor of `A`, and parsing still succeeds. -/
theorem claimC9_to_name_resolution :
    (∀ (inputs : List (String × InputTagInfo)) (names : List String),
        collectInputs inputs names
          = names.filterMap (fun n => lookupAssoc inputs n))
  ∧ (∀ (inputs : List (String × InputTagInfo)) (names : List String),
        (collectInputs inputs names).length
          = (names.filter (fun n => hasKey inputs n)).length)
  ∧ ((lookupAssoc (buildSchema exTreeInputs) "T").map (fun e => e.inputs)
        = some [⟨"Text", "text"⟩])
  ∧ (parse_config (some "<View><Text name=A /><Choices name=T /></View>")
        (fun _ => .tree exTreeInputs)
      = .ok (buildSchema exTreeInputs)) := by
  refine ⟨?_, ?_, by decide, rfl⟩
  · intro inputs names
    induction names with
    | nil => rfl
    | cons n ns ih =>
      unfold collectInputs
      rw [List.filterMap_cons]
      cases h : lookupAssoc inputs n with
      | none => simp [ih]
      | some i => simp [ih]
  · intro inputs names
    induction names with
    | nil => rfl
    | cons n ns ih =>
      unfold collectInputs
      rw [List.filter_cons]
      cases h : lookupAssoc inputs n with
      | none =>
        have hk : hasKey inputs n = false := by
          rw [hasKey_eq_isSome_lookupAssoc, h]
          rfl
        simp [hk, ih]
      | some i =>
        have hk : hasKey inputs n = true := by
          rw [hasKey_eq_isSome_lookupAssoc, h]
          rfl
        simp [hk, ih]

/-- C10: a node carrying `name`, `toName` and `value` (kind outside `{Filter}`)
is recorded only as an output tag — the `elif` never runs, so the input map is
untouched — and consequently its name, referenced from the `to_name` list of
`to_name`, resolves to no input descriptor while still appearing as a Schema
key. -/
theorem claimC10_output_precedence :
    (∀ (tag : String) (attrs : AttrMap) (anc : List AttrMap) (st : ParseState),
        _is_output_tag tag attrs = true →
        (processTag tag attrs anc st).inputs = st.inputs)
  ∧ (hasKey (buildSchema exTreeBothClasses) "A" = true)
  ∧ ((lookupAssoc (buildSchema exTreeBothClasses) "T").map (fun e => e.inputs)
        = some []) := by
  refine ⟨?_, by decide, by decide⟩
  intro tag attrs anc st h
  rw [processTag_inputs_eq]
  exact classifyTag_inputs_of_output st h

/-- C10 witness: the dual-qualified node `<Choices name="A" toName="t"
value="v"/>` leaves the (empty) input map unchanged. -/
theorem claimC10_witness :
    (processTag "Choices" [("name", "A"), ("toName", "t"), ("value", "v")] []
        ⟨[], [], []⟩).inputs = ParseState.inputs ⟨[], [], []⟩ :=
  claimC10_output_precedence.1 "Choices"
    [("name", "A"), ("toName", "t"), ("value", "v")] [] ⟨[], [], []⟩ (by decide)

end LabelStudio
